import Mathlib

/-!
Verification of a Debian-style package dependency-graph resolver.

The development is a shallow embedding of the two core modules:
`package_manager.py` (package index: fetch, lookup, dependency-field
parsing) and `dependency_graph.py` (depth-limited, cycle-aware DFS over
the index, plus graph statistics).

Python strings are modelled as `List Char` (`PStr`), so that every string
operation used by the code (`split`, `strip`, `lower`, substring
membership, `join`) is a structurally recursive, kernel-computable Lean
function.  Python exceptions are modelled with `Except`/`Option`: a
function that can raise returns `Except ε α` (or `Option α`), and a
`try`/`except` block is a `match` on that result.
-/

/-- Python strings, modelled as lists of characters. -/
abbrev PStr := List Char

/-- Python `s.lower()`. -/
def pylower (s : PStr) : PStr := s.map Char.toLower

/-- Python `needle in hay` for strings: substring containment. -/
def pyIn (needle : PStr) : PStr → Bool
  | [] => needle.isEmpty
  | c :: rest => needle.isPrefixOf (c :: rest) || pyIn needle rest

/-- Python `s.split(sep)` for a one-character separator `sep`
(all separators used by the code are single characters). -/
def splitOnChar (sep : Char) : PStr → List PStr
  | [] => [[]]
  | c :: rest =>
    let r := splitOnChar sep rest
    if c = sep then [] :: r
    else (c :: r.headD []) :: r.tail

/-- Python `s.strip()`: drop whitespace from both ends. -/
def pyStrip (s : PStr) : PStr :=
  ((s.dropWhile Char.isWhitespace).reverse.dropWhile Char.isWhitespace).reverse

/-- Python `sep.join(parts)`. -/
def pyJoin (sep : PStr) (parts : List PStr) : PStr :=
  List.intercalate sep parts

/-- A parsed package record, as produced for each stanza by
`_parse_packages_file` in `package_manager.py`. -/
structure PackageRecord where
  name : PStr
  version : PStr
  description : PStr
  depends : List PStr
  pre_depends : List PStr
  architecture : PStr
deriving DecidableEq

/-- `_parse_dependencies` from `package_manager.py`: turn a raw
`Depends`/`Pre-Depends` field into a list of bare package names.
For each comma-separated group, take the first `|`-alternative, truncate
at the first space or `(`, strip, and append if nonempty and not already
present. -/
def parse_dependencies (deps_string : PStr) : List PStr :=
  if deps_string = [] then []
  else
    (splitOnChar ',' deps_string).foldl (fun dependencies dep_group =>
      let dep_group := pyStrip dep_group
      if dep_group = [] then dependencies
      else
        let alternatives := splitOnChar '|' dep_group
        let first_alternative := pyStrip (alternatives.headD [])
        let clean_dep :=
          pyStrip ((splitOnChar '(' ((splitOnChar ' ' first_alternative).headD [])).headD [])
        if clean_dep ≠ [] ∧ clean_dep ∉ dependencies then dependencies ++ [clean_dep]
        else dependencies) []

-- quick sanity checks (claim C5 example)
example : parse_dependencies "libc6 (>= 2.7), libssl1.1 | libssl3".data =
    ["libc6".data, "libssl1.1".data] := by decide
example : parse_dependencies "a, b, a".data = ["a".data, "b".data] := by decide
example : parse_dependencies [] = [] := by decide

/-- The exception raised by `_find_package` / `_download_packages_file` in
`package_manager.py`.  The Python code raises `Exception(msg)` with a
formatted message; here the message content is kept structured:
`indexUnavailable` is the failure after every mirror URL failed,
`notFoundSimilar q l` is the message naming the queried package `q` and up
to five similar known names `l`, and `notFoundExamples q l` is the message
naming `q` and up to ten example known names `l`. -/
inductive PkgError where
  | indexUnavailable
  | notFoundSimilar (queried : PStr) (suggestions : List PStr)
  | notFoundExamples (queried : PStr) (examples : List PStr)
deriving DecidableEq

/-- `UbuntuPackageManager` from `package_manager.py`.  The package cache is
populated at most once from the network; `fetch` is the outcome of
`_download_packages_file` followed by `_parse_packages_file`: `none` when
every mirror fetch attempt fails (the raised index-unavailable exception),
`some cache` when one mirror succeeds, with the parsed index as an ordered
name-keyed association list (a Python dict preserving insertion order). -/
structure UbuntuPackageManager where
  fetch : Option (List (PStr × PackageRecord))

/-- `_find_package` from `package_manager.py`: exact lookup in the cache;
on a miss, raise with up to 5 case-insensitive-substring suggestions if
any exist, otherwise with up to 10 example names from the cache. -/
def find_package (cache : List (PStr × PackageRecord)) (package_name : PStr) :
    Except PkgError PackageRecord :=
  match cache.lookup package_name with
  | some pkg_info => Except.ok pkg_info
  | none =>
    let similar := (cache.map Prod.fst).filter
      (fun pkg => pyIn (pylower package_name) (pylower pkg))
    if similar ≠ [] then
      Except.error (PkgError.notFoundSimilar package_name (similar.take 5))
    else
      Except.error (PkgError.notFoundExamples package_name ((cache.map Prod.fst).take 10))

/-- `get_package_info` from `package_manager.py`: populate the cache if
needed (propagating the index-unavailable failure), then look the name up.
The `version` argument is accepted but unused. -/
def get_package_info (pm : UbuntuPackageManager) (package_name version : PStr) :
    Except PkgError PackageRecord :=
  match pm.fetch with
  | none => Except.error PkgError.indexUnavailable
  | some cache => find_package cache package_name

/-- `get_package_dependencies` from `package_manager.py`: populate the
cache if needed, find the package, and return `depends ++ pre_depends`.
The `version` argument is accepted but unused. -/
def get_package_dependencies (pm : UbuntuPackageManager) (package_name version : PStr) :
    Except PkgError (List PStr) :=
  match pm.fetch with
  | none => Except.error PkgError.indexUnavailable
  | some cache =>
    match find_package cache package_name with
    | Except.error e => Except.error e
    | Except.ok package_info => Except.ok (package_info.depends ++ package_info.pre_depends)

/-- One vertex of the dependency tree built by `_dfs_build_graph` in
`dependency_graph.py`.  A node is a Python dict whose possible keys are
`package`, `version`, `depth`, `dependencies`, `filtered_count`, `error`
and `cycle`; an `Option.none` field models an absent key.  The
`dependencies` value is a name-keyed, insertion-ordered dict of child
nodes, modelled as an association list. -/
inductive Node where
  | mk (package : Option PStr) (version : Option PStr) (depth : Option Nat)
       (dependencies : Option (List (PStr × Node)))
       (filtered_count : Option Nat)
       (error : Option PkgError) (cycle : Option PStr) : Node

def Node.package : Node → Option PStr
  | Node.mk p _ _ _ _ _ _ => p

def Node.version : Node → Option PStr
  | Node.mk _ v _ _ _ _ _ => v

def Node.depth : Node → Option Nat
  | Node.mk _ _ d _ _ _ _ => d

def Node.dependencies : Node → Option (List (PStr × Node))
  | Node.mk _ _ _ deps _ _ _ => deps

def Node.filtered_count : Node → Option Nat
  | Node.mk _ _ _ _ fc _ _ => fc

def Node.error : Node → Option PkgError
  | Node.mk _ _ _ _ _ e _ => e

def Node.cycle : Node → Option PStr
  | Node.mk _ _ _ _ _ _ c => c

/-- The empty dict `{}`: a freshly created, never-expanded child node. -/
def Node.empty : Node := Node.mk none none none none none none none

/-- A node carrying only an `error` key, as produced by the
`except` branch of `_dfs_build_graph`. -/
def Node.errorOnly (e : PkgError) : Node :=
  Node.mk none none none none none (some e) none

/-- A node carrying only a `cycle` key, as produced by the cycle branch of
`_dfs_build_graph`. -/
def Node.cycleOnly (s : PStr) : Node :=
  Node.mk none none none none none none (some s)

/-- Python `not node` on a node dict: true exactly when the dict is empty
(no key is present). -/
def Node.isEmptyDict (n : Node) : Bool :=
  n.package.isNone && n.version.isNone && n.depth.isNone && n.dependencies.isNone &&
  n.filtered_count.isNone && n.error.isNone && n.cycle.isNone

/-- The dict returned by `build_dependency_graph`: `root` name, the root
package's node (stored under the `dependencies` key), the unused `cycles`
list and the top-level `filtered_count` counter. -/
structure Graph where
  root : PStr
  dependencies : Node
  cycles : List PStr
  filtered_count : Nat

/-- The cycle path string `"A -> B -> C -> A"` computed by the cycle
branch of `_dfs_build_graph`: `path[path.index(name):] + [name]`, joined
with `" -> "`. -/
def cycle_string (path : List PStr) (package_name : PStr) : PStr :=
  pyJoin " -> ".data (path.dropWhile (fun x => x ≠ package_name) ++ [package_name])

/-- The dependency-filtering loop of `_dfs_build_graph`: drop every
dependency whose lowercase form contains the nonempty lowercase filter
substring, counting the drops; return the surviving list (in order) and
the number of dropped names. -/
def filter_dependencies (filter_substring : PStr) : List PStr → List PStr × Nat
  | [] => ([], 0)
  | dep :: rest =>
    let r := filter_dependencies filter_substring rest
    if filter_substring ≠ [] ∧ pyIn (pylower filter_substring) (pylower dep) then
      (r.1, r.2 + 1)
    else (dep :: r.1, r.2)

/-- `_dfs_build_graph` from `dependency_graph.py`, written functionally:
the result is the final contents of the `graph_node` dict that the Python
code mutates in place.

The Python guard `current_depth > max_depth` is replaced by a fuel
counter: a call at depth `d` receives `fuel = (max_depth + 1 - d).toNat`,
so `fuel = 0` holds exactly when `current_depth > max_depth`, and each
child call at depth `d + 1` receives `fuel - 1`.  `current_depth` is still
passed explicitly because it is stored in the node's `depth` field.

On `fuel = 0` the node is left as the empty dict.  Otherwise: if the name
occurs in the ancestor path, only `cycle` is set; if the index lookup
raises, only `error` is set; otherwise `package`, `version`, `depth` and
`dependencies` are filled in, `filtered_count` is set only when at least
one dependency was filtered (the Python code creates the key on first
increment), and each surviving dependency not already present among the
children is recursively expanded. -/
def dfs_build_graph (pm : UbuntuPackageManager) (filter_substring : PStr) :
    Nat → PStr → PStr → Nat → List PStr → Node
  | 0, _, _, _, _ => Node.empty
  | fuel + 1, package_name, version, current_depth, path =>
    if package_name ∈ path then
      Node.cycleOnly (cycle_string path package_name)
    else
      let current_path := path ++ [package_name]
      match get_package_info pm package_name version with
      | Except.error e => Node.errorOnly e
      | Except.ok package_info =>
        match get_package_dependencies pm package_name version with
        | Except.error e => Node.errorOnly e
        | Except.ok dependencies =>
          let fd := filter_dependencies filter_substring dependencies
          let children := fd.1.foldl (fun acc dep =>
            if dep ∈ acc.map Prod.fst then acc
            else acc ++
              [(dep, dfs_build_graph pm filter_substring fuel dep [] (current_depth + 1)
                  current_path)]) []
          Node.mk (some package_name) (some package_info.version) (some current_depth)
            (some children)
            (if fd.2 = 0 then none else some fd.2)
            none none

/-- `build_dependency_graph` from `dependency_graph.py`: create the graph
dict and run the DFS from the root package at depth 0 with an empty
ancestor path.  The root call's fuel is `(max_depth + 1).toNat`, which is
positive exactly when `0 ≤ max_depth` (i.e. `current_depth > max_depth`
does not hold at the root). -/
def build_dependency_graph (pm : UbuntuPackageManager) (package_name version : PStr)
    (max_depth : Int) (filter_substring : PStr) : Graph :=
  { root := package_name
    dependencies :=
      dfs_build_graph pm filter_substring (max_depth + 1).toNat package_name version 0 []
    cycles := []
    filtered_count := 0 }

mutual
/-- The inner `count_nodes` of `get_statistics` in `dependency_graph.py`.
The Python function returns the 2-tuple `(0, 0)` for an empty dict and a
3-tuple `(total, errors, cycles)` otherwise; the recursive call site
unpacks three values and raises `ValueError` on a 2-tuple.  The return
type `Option (List Nat)` models this: the list is the returned tuple, and
`none` is a raised exception (from a failed unpack deeper down). -/
def count_nodes : Node → Option (List Nat)
  | Node.mk p v d deps fc e c =>
    if (Node.mk p v d deps fc e c).isEmptyDict then some [0, 0]
    else
      let errors : Nat := if e.isSome then 1 else 0
      let cycles : Nat := if c.isSome then 1 else 0
      match deps with
      | none => some [1, errors, cycles]
      | some cs =>
        match count_children cs with
        | none => none
        | some (dt, de, dc) => some [1 + dt, errors + de, cycles + dc]

/-- The `for dep in node['dependencies'].values()` loop of `count_nodes`:
each child's result is unpacked as exactly three values (`none` models the
`ValueError` when a child returned the 2-tuple, and any exception
propagates). -/
def count_children : List (PStr × Node) → Option (Nat × Nat × Nat)
  | [] => some (0, 0, 0)
  | (_, d) :: rest =>
    match count_nodes d with
    | some [dep_total, dep_errors, dep_cycles] =>
      match count_children rest with
      | none => none
      | some (t, er, cy) => some (dep_total + t, dep_errors + er, dep_cycles + cy)
    | _ => none
end

mutual
/-- The inner `find_depth` of `_get_max_depth` in `dependency_graph.py`:
the running maximum of `current_depth` over the node and all its
descendants (`current_depth + 1` for each child). -/
def find_depth : Node → Nat → Nat
  | Node.mk _ _ _ none _ _ _, current_depth => current_depth
  | Node.mk _ _ _ (some cs) _ _ _, current_depth => find_depth_list cs current_depth

/-- The `for dep in node['dependencies'].values()` loop of `find_depth`. -/
def find_depth_list : List (PStr × Node) → Nat → Nat
  | [], current_depth => current_depth
  | (_, c) :: rest, current_depth =>
    max (find_depth_list rest current_depth) (find_depth c (current_depth + 1))
end

/-- `_get_max_depth` from `dependency_graph.py`. -/
def get_max_depth (graph : Graph) : Nat :=
  find_depth graph.dependencies 0

/-- The dict returned by `get_statistics` in `dependency_graph.py`. -/
structure Statistics where
  total_packages : Nat
  root_package : PStr
  max_depth_reached : Nat
  errors_count : Nat
  cycles_count : Nat
  filtered_count : Nat
deriving DecidableEq

/-- `get_statistics` from `dependency_graph.py`: run `count_nodes` on the
root's node and unpack the result as three values.  `none` models the
`ValueError` raised when the unpacked tuple does not have exactly three
components (which happens when the root's node, or any node reached
through a nonempty node's children, is the empty dict). -/
def get_statistics (graph : Graph) : Option Statistics :=
  match count_nodes graph.dependencies with
  | some [total, errors, cycles] =>
    some { total_packages := total
           root_package := graph.root
           max_depth_reached := get_max_depth graph
           errors_count := errors
           cycles_count := cycles
           filtered_count := graph.filtered_count }
  | _ => none

/-! ### Specification-side measurements

The following definitions are not translations of source code; they state,
in the specification's vocabulary, what is being counted: the number of
nodes of a tree, the number of nodes carrying an `error` / `cycle` key,
and the maximum structural depth of a tree.  The claims compare
`get_statistics` against these. -/

mutual
/-- Specification-side count of all nodes of a tree (the node itself plus
every node reachable through its `dependencies` children). -/
def num_nodes : Node → Nat
  | Node.mk _ _ _ none _ _ _ => 1
  | Node.mk _ _ _ (some cs) _ _ _ => 1 + num_nodes_list cs

def num_nodes_list : List (PStr × Node) → Nat
  | [] => 0
  | (_, n) :: rest => num_nodes n + num_nodes_list rest
end

mutual
/-- Specification-side count of the nodes of a tree whose `error` key is set. -/
def num_error_nodes : Node → Nat
  | Node.mk _ _ _ none _ e _ => if e.isSome then 1 else 0
  | Node.mk _ _ _ (some cs) _ e _ => (if e.isSome then 1 else 0) + num_error_nodes_list cs

def num_error_nodes_list : List (PStr × Node) → Nat
  | [] => 0
  | (_, n) :: rest => num_error_nodes n + num_error_nodes_list rest
end

mutual
/-- Specification-side count of the nodes of a tree whose `cycle` key is set. -/
def num_cycle_nodes : Node → Nat
  | Node.mk _ _ _ none _ _ c => if c.isSome then 1 else 0
  | Node.mk _ _ _ (some cs) _ _ c => (if c.isSome then 1 else 0) + num_cycle_nodes_list cs

def num_cycle_nodes_list : List (PStr × Node) → Nat
  | [] => 0
  | (_, n) :: rest => num_cycle_nodes n + num_cycle_nodes_list rest
end

mutual
/-- Specification-side maximum structural depth of a tree: the largest
distance (number of child steps) from the tree's root node to any node,
0 when there are no children. -/
def struct_max_depth : Node → Nat
  | Node.mk _ _ _ none _ _ _ => 0
  | Node.mk _ _ _ (some cs) _ _ _ => struct_max_depth_list cs

def struct_max_depth_list : List (PStr × Node) → Nat
  | [] => 0
  | (_, n) :: rest => max (struct_max_depth_list rest) (1 + struct_max_depth n)
end

/-- `NodeAt (nm, nd) anc (nm', nd')` holds when the node `nd'`, keyed by
the name `nm'`, occurs in the tree rooted at the node `nd` (keyed `nm`),
and `anc` is the list of names of its proper ancestors from the tree's
root down to its parent (so `anc = []` means the node is the tree's root
itself, and the node's structural depth in the tree is `anc.length`). -/
inductive NodeAt : PStr × Node → List PStr → PStr × Node → Prop where
  | refl (p : PStr × Node) : NodeAt p [] p
  | step {nm : PStr} {nd : Node} {cs : List (PStr × Node)}
      {c : PStr × Node} {anc : List PStr} {q : PStr × Node} :
      nd.dependencies = some cs → c ∈ cs → NodeAt c anc q →
      NodeAt (nm, nd) (nm :: anc) q

/-! ### Concrete test fixtures -/

/-- A package record fixture with empty description and architecture. -/
def testRecord (name version : PStr) (depends pre_depends : List PStr) : PackageRecord :=
  { name := name, version := version, description := [],
    depends := depends, pre_depends := pre_depends, architecture := [] }

/-- Index: `a` (version 1.0) depends on `b`; `b` (version 2.0) has no
dependencies. -/
def pmY : UbuntuPackageManager :=
  { fetch := some
      [("a".data, testRecord "a".data "1.0".data ["b".data] []),
       ("b".data, testRecord "b".data "2.0".data [] [])] }

/-- Index with a two-cycle: `a` depends on `b` and `b` depends on `a`. -/
def pmB : UbuntuPackageManager :=
  { fetch := some
      [("a".data, testRecord "a".data "1.0".data ["b".data] []),
       ("b".data, testRecord "b".data "2.0".data ["a".data] [])] }

/-- A manager for which every mirror fetch attempt fails. -/
def pmNone : UbuntuPackageManager := { fetch := none }

/-- Index: `r` depends on `x` (absent from the index) and on `b` (present). -/
def pmS : UbuntuPackageManager :=
  { fetch := some
      [("r".data, testRecord "r".data "1.0".data ["x".data, "b".data] []),
       ("b".data, testRecord "b".data "2.0".data [] [])] }

/-- Index: `p` depends on `a`, `ab` and `b`, all present with no
dependencies of their own. -/
def pmF : UbuntuPackageManager :=
  { fetch := some
      [("p".data, testRecord "p".data "1.0".data ["a".data, "ab".data, "b".data] []),
       ("a".data, testRecord "a".data "1".data [] []),
       ("ab".data, testRecord "ab".data "1".data [] []),
       ("b".data, testRecord "b".data "1".data [] [])] }

/-- Index: `p` has `q` both in `depends` and in `pre_depends`. -/
def pmD : UbuntuPackageManager :=
  { fetch := some
      [("p".data, testRecord "p".data "1.0".data ["q".data] ["q".data]),
       ("q".data, testRecord "q".data "3".data [] [])] }

/-! ### Specification-side view of the dependency expression parser -/

/-- Specification-side cleaning of one comma-separated AND group: take the
first `|`-alternative, truncate at the first space or `(`, and strip
whitespace. -/
def clean_group (dep_group : PStr) : PStr :=
  pyStrip ((splitOnChar '('
    ((splitOnChar ' ' (pyStrip ((splitOnChar '|' (pyStrip dep_group)).headD []))).headD [])).headD [])

/-- One step of first-occurrence-wins deduplication. -/
def fw_step (acc : List PStr) (x : PStr) : List PStr :=
  if x ∈ acc then acc else acc ++ [x]

/-- Specification-side first-occurrence-wins deduplication: keep each
element's first appearance, drop later duplicates, preserve order. -/
def first_wins (l : List PStr) : List PStr :=
  l.foldl fw_step []

/-- Specification-side list of cleaned names of a dependency field: one
cleaned name per comma group, empty results dropped. -/
def spec_clean_names (s : PStr) : List PStr :=
  if s = [] then []
  else ((splitOnChar ',' s).map clean_group).filter (fun x => x ≠ [])

/-- One step of the `parse_dependencies` fold, with the let-bindings of
the source inlined (definitionally equal to the fold body of
`parse_dependencies`). -/
def parse_step (dependencies : List PStr) (dep_group : PStr) : List PStr :=
  if pyStrip dep_group = [] then dependencies
  else if clean_group dep_group ≠ [] ∧ clean_group dep_group ∉ dependencies then
    dependencies ++ [clean_group dep_group]
  else dependencies

theorem parse_dependencies_eq_fold (s : PStr) :
    parse_dependencies s =
      if s = [] then [] else (splitOnChar ',' s).foldl parse_step [] := rfl

theorem clean_group_of_strip_empty (g : PStr) (h : pyStrip g = []) : clean_group g = [] := by
  unfold clean_group
  rw [h]
  rfl

theorem first_wins_fold_nodup :
    ∀ (l acc : List PStr), acc.Nodup → (l.foldl fw_step acc).Nodup := by
  intro l
  induction l with
  | nil => intro acc h; simpa using h
  | cons x xs ih =>
    intro acc h
    simp only [List.foldl_cons, fw_step]
    by_cases hx : x ∈ acc
    · rw [if_pos hx]; exact ih acc h
    · rw [if_neg hx]
      exact ih (acc ++ [x]) (by simp [List.nodup_append, h, hx])

theorem parse_fold_eq (gs : List PStr) :
    ∀ acc : List PStr,
      gs.foldl parse_step acc =
        ((gs.map clean_group).filter (fun x => x ≠ [])).foldl fw_step acc := by
  induction gs with
  | nil => intro acc; rfl
  | cons g gs ih =>
    intro acc
    simp only [List.foldl_cons, List.map_cons, List.filter_cons]
    by_cases hg : pyStrip g = []
    · have hcg : clean_group g = [] := clean_group_of_strip_empty g hg
      have hps : parse_step acc g = acc := by unfold parse_step; rw [if_pos hg]
      rw [hps, hcg, ih acc]
      simp
    · have hps : parse_step acc g =
          if clean_group g ≠ [] ∧ clean_group g ∉ acc then acc ++ [clean_group g] else acc := by
        unfold parse_step
        rw [if_neg hg]
      by_cases hc : clean_group g = []
      · rw [hps, hc]
        simp only [ne_eq, not_true_eq_false, false_and, if_false]
        rw [ih acc]
        simp
      · rw [hps, if_pos (by simp [hc] : decide (clean_group g ≠ []) = true), List.foldl_cons]
        by_cases hm : clean_group g ∈ acc
        · rw [if_neg (by simp [hm]), show fw_step acc (clean_group g) = acc from by
            unfold fw_step; rw [if_pos hm]]
          exact ih acc
        · rw [if_pos ⟨hc, hm⟩, show fw_step acc (clean_group g) = acc ++ [clean_group g] from by
            unfold fw_step; rw [if_neg hm]]
          exact ih (acc ++ [clean_group g])

/-- C5: for every raw dependency field value, `parse_dependencies` returns
the per-group cleaned first alternatives (first `|`-alternative, truncated
at the first `(` or whitespace) with first-occurrence-wins deduplication
preserving order of first appearance; it returns no duplicates, yields
`[]` on empty input, and parses `"libc6 (>= 2.7), libssl1.1 | libssl3"`
to `["libc6", "libssl1.1"]`. -/
theorem C5_parse_dependencies_spec :
    (∀ s : PStr, parse_dependencies s = first_wins (spec_clean_names s)) ∧
    (∀ s : PStr, (parse_dependencies s).Nodup) ∧
    parse_dependencies [] = [] ∧
    parse_dependencies "libc6 (>= 2.7), libssl1.1 | libssl3".data =
      ["libc6".data, "libssl1.1".data] := by
  have hfold : ∀ s : PStr, parse_dependencies s = first_wins (spec_clean_names s) := by
    intro s
    rw [parse_dependencies_eq_fold]
    unfold first_wins spec_clean_names
    by_cases hs : s = []
    · rw [if_pos hs, if_pos hs]
      rfl
    · rw [if_neg hs, if_neg hs, parse_fold_eq]
  refine ⟨hfold, ?_, by decide, by decide⟩
  intro s
  rw [hfold]
  exact first_wins_fold_nodup _ [] List.nodup_nil

/-- A key that `List.lookup` does not find is not among the keys. -/
theorem lookup_none_not_mem {β : Type} (l : List (PStr × β)) (a : PStr)
    (h : List.lookup a l = none) : a ∉ l.map Prod.fst := by
  induction l with
  | nil => simp
  | cons p rest ih =>
    obtain ⟨k, b⟩ := p
    simp only [List.lookup] at h
    simp only [List.map_cons, List.mem_cons]
    by_cases hak : a = k
    · subst hak
      simp at h
    · intro hmem
      rcases hmem with he | hm
      · exact hak he
      · have hb : (a == k) = false := by simp [hak]
        rw [hb] at h
        exact ih h hm

/-- C6: for every package present in a successfully built index,
`get_package_dependencies` returns its `depends` list concatenated with
its `pre_depends` list in that order; the caller-supplied version does not
affect the result; a name occurring in both lists appears (at least)
twice; and each list is internally deduplicated by the dependency parser
that produced it. -/
theorem C6_get_package_dependencies_spec :
    ∀ (pm : UbuntuPackageManager) (cache : List (PStr × PackageRecord))
      (name v v' : PStr) (r : PackageRecord),
      pm.fetch = some cache → List.lookup name cache = some r →
      get_package_dependencies pm name v = Except.ok (r.depends ++ r.pre_depends) ∧
      get_package_dependencies pm name v = get_package_dependencies pm name v' ∧
      (∀ d, d ∈ r.depends → d ∈ r.pre_depends →
        2 ≤ List.count d (r.depends ++ r.pre_depends)) ∧
      (∀ s, (parse_dependencies s).Nodup) := by
  intro pm cache name v v' r hfetch hlook
  have hfind : find_package cache name = Except.ok r := by
    unfold find_package
    rw [hlook]
  refine ⟨?_, ?_, ?_, C5_parse_dependencies_spec.2.1⟩
  · unfold get_package_dependencies
    rw [hfetch]
    simp only [hfind]
  · unfold get_package_dependencies
    rw [hfetch]
  · intro d hd hp
    rw [List.count_append]
    have h1 : 0 < List.count d r.depends := List.count_pos_iff.mpr hd
    have h2 : 0 < List.count d r.pre_depends := List.count_pos_iff.mpr hp
    omega

/-- Witness for C6 at the concrete index `pmD`, whose package `p` lists
`q` both in `depends` and in `pre_depends`. -/
theorem C6_witness :
    get_package_dependencies pmD "p".data "1".data = Except.ok ["q".data, "q".data] ∧
    2 ≤ List.count "q".data ["q".data, "q".data] :=
  ⟨(C6_get_package_dependencies_spec pmD
      [("p".data, testRecord "p".data "1.0".data ["q".data] ["q".data]),
       ("q".data, testRecord "q".data "3".data [] [])]
      "p".data "1".data "2".data
      (testRecord "p".data "1.0".data ["q".data] ["q".data]) rfl rfl).1,
   (C6_get_package_dependencies_spec pmD
      [("p".data, testRecord "p".data "1.0".data ["q".data] ["q".data]),
       ("q".data, testRecord "q".data "3".data [] [])]
      "p".data "1".data "2".data
      (testRecord "p".data "1.0".data ["q".data] ["q".data]) rfl rfl).2.2.1
      "q".data (by decide) (by decide)⟩

/-- Specification-side filter predicate: the filter substring is nonempty
and the dependency's lowercase form contains its lowercase form. -/
def matches_filter (filter_substring dep : PStr) : Bool :=
  !filter_substring.isEmpty && pyIn (pylower filter_substring) (pylower dep)

/-- C7: during expansion of a node, exactly the dependency names matching
the (case-insensitive, nonempty) filter substring are dropped, an empty
filter drops nothing, the surviving list preserves order, and the dropped
names are counted; for dependencies `["a", "ab", "b"]` and filter `"a"`
the survivors are `["b"]` with 2 drops, and in the graph built over the
index `pmF` the root node records `filtered_count = 2` with sole child
`b`. -/
theorem C7_filter_dependencies_spec :
    (∀ (filt : PStr) (deps : List PStr),
      filter_dependencies filt deps =
        (deps.filter (fun d => !matches_filter filt d),
         (deps.filter (fun d => matches_filter filt d)).length)) ∧
    (∀ deps : List PStr, filter_dependencies [] deps = (deps, 0)) ∧
    filter_dependencies "a".data ["a".data, "ab".data, "b".data] = (["b".data], 2) ∧
    ((build_dependency_graph pmF "p".data "1.0".data 5 "a".data).dependencies.filtered_count
        = some 2 ∧
      ((build_dependency_graph pmF "p".data "1.0".data 5 "a".data).dependencies.dependencies).map
        (fun cs => cs.map Prod.fst) = some ["b".data]) := by
  have hmain : ∀ (filt : PStr) (deps : List PStr),
      filter_dependencies filt deps =
        (deps.filter (fun d => !matches_filter filt d),
         (deps.filter (fun d => matches_filter filt d)).length) := by
    intro filt deps
    induction deps with
    | nil => rfl
    | cons d rest ih =>
      simp only [filter_dependencies, ih, List.filter_cons]
      by_cases hmatch : filt ≠ [] ∧ pyIn (pylower filt) (pylower d) = true
      · have hb : matches_filter filt d = true := by
          unfold matches_filter
          obtain ⟨h1, h2⟩ := hmatch
          simp [h2, List.isEmpty_iff, h1]
        rw [if_pos hmatch, hb]
        simp
      · have hb : matches_filter filt d = false := by
          unfold matches_filter
          by_cases h1 : filt = []
          · simp [h1]
          · have h2 : ¬ pyIn (pylower filt) (pylower d) = true := fun hc => hmatch ⟨h1, hc⟩
            simp only [Bool.and_eq_false_imp]
            intro
            simpa using h2
        rw [if_neg hmatch, hb]
        simp
  refine ⟨hmain, ?_, by decide, by constructor <;> rfl⟩
  intro deps
  rw [hmain]
  have hid : ∀ d : PStr, matches_filter [] d = false := fun d => by simp [matches_filter]
  simp [hid]

/-- C8: a lookup of a name absent from a successfully built index always
fails with a not-found error and never yields a package: if some known
name contains the query as a case-insensitive substring, the error lists
at most 5 such names as suggestions; otherwise it lists at most 10 known
names as examples, none of which equals the queried name. -/
theorem C8_find_package_spec :
    ∀ (cache : List (PStr × PackageRecord)) (name : PStr),
      List.lookup name cache = none →
      (∀ r, find_package cache name ≠ Except.ok r) ∧
      ((∃ p ∈ cache.map Prod.fst, pyIn (pylower name) (pylower p) = true) →
        ∃ l, find_package cache name = Except.error (PkgError.notFoundSimilar name l) ∧
          l.length ≤ 5 ∧
          ∀ p ∈ l, p ∈ cache.map Prod.fst ∧ pyIn (pylower name) (pylower p) = true) ∧
      ((¬ ∃ p ∈ cache.map Prod.fst, pyIn (pylower name) (pylower p) = true) →
        ∃ l, find_package cache name = Except.error (PkgError.notFoundExamples name l) ∧
          l.length ≤ 10 ∧ ∀ p ∈ l, p ∈ cache.map Prod.fst ∧ p ≠ name) := by
  intro cache name hlook
  have hkeys := lookup_none_not_mem cache name hlook
  have hsim : (cache.map Prod.fst).filter
      (fun pkg => pyIn (pylower name) (pylower pkg)) = [] ↔
      ¬ ∃ p ∈ cache.map Prod.fst, pyIn (pylower name) (pylower p) = true := by
    rw [List.filter_eq_nil_iff]
    constructor
    · rintro h ⟨p, hp, hpy⟩
      exact absurd hpy (by simpa using h p hp)
    · intro h p hp
      simp only [Bool.not_eq_true]
      by_contra hc
      exact h ⟨p, hp, by simpa using hc⟩
  have hred : find_package cache name =
      (if (cache.map Prod.fst).filter (fun pkg => pyIn (pylower name) (pylower pkg)) ≠ [] then
        Except.error (PkgError.notFoundSimilar name
          (((cache.map Prod.fst).filter (fun pkg => pyIn (pylower name) (pylower pkg))).take 5))
      else
        Except.error (PkgError.notFoundExamples name ((cache.map Prod.fst).take 10))) := by
    unfold find_package
    rw [hlook]
  by_cases hempty : (cache.map Prod.fst).filter
      (fun pkg => pyIn (pylower name) (pylower pkg)) = []
  · rw [hempty, if_neg (by simp)] at hred
    refine ⟨fun r h => by rw [hred] at h; exact Except.noConfusion h,
      fun hex => absurd hex (hsim.mp hempty), fun _ => ?_⟩
    refine ⟨(cache.map Prod.fst).take 10, hred, List.length_take_le 10 _, ?_⟩
    intro p hp
    have hmem : p ∈ cache.map Prod.fst := List.mem_of_mem_take hp
    exact ⟨hmem, fun he => hkeys (he ▸ hmem)⟩
  · rw [if_pos hempty] at hred
    refine ⟨fun r h => by rw [hred] at h; exact Except.noConfusion h, fun _ => ?_,
      fun hne => absurd (hsim.mpr hne) hempty⟩
    refine ⟨_, hred, List.length_take_le 5 _, ?_⟩
    intro p hp
    have hmem := List.mem_of_mem_take hp
    have hpf := List.mem_filter.mp hmem
    exact ⟨hpf.1, hpf.2⟩

/-- Witness for C8 at a concrete one-entry index: `"ph"` is absent but is
a case-insensitive substring of the known name `"alpha"`. -/
theorem C8_witness :
    find_package [("alpha".data, testRecord "alpha".data "1".data [] [])] "ph".data ≠
      Except.ok (testRecord "alpha".data "1".data [] []) ∧
    find_package [("alpha".data, testRecord "alpha".data "1".data [] [])] "ph".data =
      Except.error (PkgError.notFoundSimilar "ph".data ["alpha".data]) :=
  ⟨(C8_find_package_spec [("alpha".data, testRecord "alpha".data "1".data [] [])] "ph".data
      (by decide)).1 _,
   rfl⟩

/-! ### Relating `count_nodes` / `find_depth` to the specification-side counts -/

theorem isEmptyDict_false_of_deps (n : Node) (cs : List (PStr × Node))
    (h : n.dependencies = some cs) : n.isEmptyDict = false := by
  unfold Node.isEmptyDict
  rw [h]
  simp

mutual
theorem count_nodes_eq : ∀ (n : Node) (t e c : Nat), count_nodes n = some [t, e, c] →
    t = num_nodes n ∧ e = num_error_nodes n ∧ c = num_cycle_nodes n
  | Node.mk p v d none fc er cy, t, e, c, h => by
    have hunfold : count_nodes (Node.mk p v d none fc er cy) =
        (if (Node.mk p v d none fc er cy).isEmptyDict then some [0, 0]
         else some [1, if er.isSome then 1 else 0, if cy.isSome then 1 else 0]) := rfl
    rw [hunfold] at h
    by_cases hemp : (Node.mk p v d none fc er cy).isEmptyDict
    · rw [if_pos hemp] at h
      simp at h
    · rw [if_neg hemp] at h
      simp only [Option.some_inj, List.cons.injEq, and_true] at h
      obtain ⟨ht, he, hc⟩ := h
      exact ⟨ht.symm, he.symm, hc.symm⟩
  | Node.mk p v d (some cs) fc er cy, t, e, c, h => by
    have hunfold : count_nodes (Node.mk p v d (some cs) fc er cy) =
        (if (Node.mk p v d (some cs) fc er cy).isEmptyDict then some [0, 0]
         else
           match count_children cs with
           | none => none
           | some (dt, de, dc) =>
             some [1 + dt, (if er.isSome then 1 else 0) + de,
               (if cy.isSome then 1 else 0) + dc]) := rfl
    rw [hunfold,
      if_neg (by simp [isEmptyDict_false_of_deps (Node.mk p v d (some cs) fc er cy) cs rfl])] at h
    rcases hcc : count_children cs with - | ⟨rt, re, rc⟩
    · rw [hcc] at h
      simp at h
    · rw [hcc] at h
      simp only [Option.some_inj, List.cons.injEq, and_true] at h
      obtain ⟨ht, he, hc⟩ := h
      obtain ⟨h1, h2, h3⟩ := count_children_eq cs rt re rc hcc
      refine ⟨?_, ?_, ?_⟩
      · rw [← ht, h1]; rfl
      · rw [← he, h2]; rfl
      · rw [← hc, h3]; rfl

theorem count_children_eq :
    ∀ (cs : List (PStr × Node)) (t e c : Nat), count_children cs = some (t, e, c) →
      t = num_nodes_list cs ∧ e = num_error_nodes_list cs ∧ c = num_cycle_nodes_list cs
  | [], t, e, c, h => by
    simp only [count_children, Option.some_inj, Prod.mk.injEq] at h
    obtain ⟨ht, he, hc⟩ := h
    exact ⟨ht.symm, he.symm, hc.symm⟩
  | (nm, n) :: rest, t, e, c, h => by
    simp only [count_children] at h
    rcases hcn : count_nodes n with - | val
    · rw [hcn] at h; simp at h
    · rw [hcn] at h
      rcases val with - | ⟨dt, val⟩
      · simp at h
      rcases val with - | ⟨de, val⟩
      · simp at h
      rcases val with - | ⟨dc, val⟩
      · simp at h
      rcases val with - | ⟨x, val⟩
      case cons.cons => simp at h
      rcases hcc : count_children rest with - | ⟨rt, re, rc⟩
      · rw [hcc] at h; simp at h
      · rw [hcc] at h
        simp only [Option.some_inj, Prod.mk.injEq] at h
        obtain ⟨ht, he, hc⟩ := h
        obtain ⟨a1, a2, a3⟩ := count_nodes_eq n dt de dc hcn
        obtain ⟨b1, b2, b3⟩ := count_children_eq rest rt re rc hcc
        refine ⟨?_, ?_, ?_⟩
        · rw [← ht, a1, b1]; rfl
        · rw [← he, a2, b2]; rfl
        · rw [← hc, a3, b3]; rfl
end

mutual
theorem find_depth_eq : ∀ (n : Node) (d : Nat), find_depth n d = d + struct_max_depth n
  | Node.mk p v dep none fc e c, d => by
    simp [find_depth, struct_max_depth]
  | Node.mk p v dep (some cs) fc e c, d => by
    simp only [find_depth, struct_max_depth]
    exact find_depth_list_eq cs d

theorem find_depth_list_eq :
    ∀ (cs : List (PStr × Node)) (d : Nat), find_depth_list cs d = d + struct_max_depth_list cs
  | [], d => by simp [find_depth_list, struct_max_depth_list]
  | (nm, n) :: rest, d => by
    simp only [find_depth_list, struct_max_depth_list]
    rw [find_depth_list_eq rest d, find_depth_eq n (d + 1)]
    omega
end

/-- `count_nodes` on this node does not produce a 3-tuple: either it
raises (`none`) or it returns the 2-tuple `[0, 0]`, so any caller that
unpacks its result as three values raises. -/
def bad_count (n : Node) : Prop := ∀ t e c : Nat, count_nodes n ≠ some [t, e, c]

theorem count_shape (n : Node) :
    count_nodes n = none ∨ count_nodes n = some [0, 0] ∨
      ∃ t e c, count_nodes n = some [t, e, c] := by
  obtain ⟨p, v, d, deps, fc, er, cy⟩ := n
  cases deps with
  | none =>
    have hunfold : count_nodes (Node.mk p v d none fc er cy) =
        (if (Node.mk p v d none fc er cy).isEmptyDict then some [0, 0]
         else some [1, if er.isSome then 1 else 0, if cy.isSome then 1 else 0]) := rfl
    rw [hunfold]
    by_cases hemp : (Node.mk p v d none fc er cy).isEmptyDict
    · rw [if_pos hemp]; exact Or.inr (Or.inl rfl)
    · rw [if_neg hemp]; exact Or.inr (Or.inr ⟨_, _, _, rfl⟩)
  | some cs =>
    have hunfold : count_nodes (Node.mk p v d (some cs) fc er cy) =
        (if (Node.mk p v d (some cs) fc er cy).isEmptyDict then some [0, 0]
         else
           match count_children cs with
           | none => none
           | some (dt, de, dc) =>
             some [1 + dt, (if er.isSome then 1 else 0) + de,
               (if cy.isSome then 1 else 0) + dc]) := rfl
    rw [hunfold,
      if_neg (by simp [isEmptyDict_false_of_deps (Node.mk p v d (some cs) fc er cy) cs rfl])]
    rcases hcc : count_children cs with - | ⟨rt, re, rc⟩
    · exact Or.inl rfl
    · exact Or.inr (Or.inr ⟨_, _, _, rfl⟩)

theorem bad_count_empty : bad_count Node.empty := by
  intro t e c h
  have : count_nodes Node.empty = some [0, 0] := rfl
  rw [this] at h
  simp at h

theorem count_children_none_of_bad (nm : PStr) (n : Node) (hbad : bad_count n) :
    ∀ cs : List (PStr × Node), (nm, n) ∈ cs → count_children cs = none := by
  intro cs
  induction cs with
  | nil => intro h; simp at h
  | cons p rest ih =>
    intro hmem
    obtain ⟨k, m⟩ := p
    simp only [count_children]
    rcases List.mem_cons.mp hmem with heq | htail
    · injection heq with h1 h2
      subst h2
      rcases count_shape n with h0 | h0 | ⟨t, e, c, h0⟩
      · rw [h0]
      · rw [h0]
      · exact absurd h0 (hbad t e c)
    · have hrest := ih htail
      rcases count_shape m with h0 | h0 | ⟨t, e, c, h0⟩
      · rw [h0]
      · rw [h0]
      · rw [h0, hrest]

theorem bad_count_of_child (n : Node) (cs : List (PStr × Node))
    (hdeps : n.dependencies = some cs) (hcc : count_children cs = none) : bad_count n := by
  obtain ⟨p, v, d, deps, fc, er, cy⟩ := n
  simp only [Node.dependencies] at hdeps
  subst hdeps
  intro t e c h
  have hunfold : count_nodes (Node.mk p v d (some cs) fc er cy) =
      (if (Node.mk p v d (some cs) fc er cy).isEmptyDict then some [0, 0]
       else
         match count_children cs with
         | none => none
         | some (dt, de, dc) =>
           some [1 + dt, (if er.isSome then 1 else 0) + de,
             (if cy.isSome then 1 else 0) + dc]) := rfl
  rw [hunfold,
    if_neg (by simp [isEmptyDict_false_of_deps (Node.mk p v d (some cs) fc er cy) cs rfl]),
    hcc] at h
  exact Option.noConfusion h

theorem bad_count_lift {r q : PStr × Node} {anc : List PStr}
    (hat : NodeAt r anc q) (hbad : bad_count q.2) : bad_count r.2 := by
  induction hat with
  | refl p => exact hbad
  | step hdeps hmem hrest ih =>
    have hbadc := ih hbad
    exact bad_count_of_child _ _ hdeps
      (count_children_none_of_bad _ _ hbadc _ (by exact hmem))

theorem get_statistics_none_of_bad (g : Graph) (hbad : bad_count g.dependencies) :
    get_statistics g = none := by
  unfold get_statistics
  rcases count_shape g.dependencies with h0 | h0 | ⟨t, e, c, h0⟩
  · rw [h0]
  · rw [h0]
  · exact absurd h0 (hbad t e c)

/-- Appending one more child step at the bottom of a `NodeAt` path. -/
theorem NodeAt_snoc {r q : PStr × Node} {anc : List PStr}
    (hat : NodeAt r anc q) {cs : List (PStr × Node)} {c : PStr × Node}
    (hdeps : q.2.dependencies = some cs) (hmem : c ∈ cs) :
    NodeAt r (anc ++ [q.1]) c := by
  induction hat with
  | refl p => exact NodeAt.step hdeps hmem (NodeAt.refl c)
  | step hdeps0 hmem0 hrest ih =>
    exact NodeAt.step hdeps0 hmem0 (ih hdeps)

/-! ### Unfolding lemmas for the DFS builder -/

theorem dfs_zero (pm : UbuntuPackageManager) (filt : PStr) (nm ver : PStr) (cd : Nat)
    (path : List PStr) : dfs_build_graph pm filt 0 nm ver cd path = Node.empty := rfl

theorem dfs_succ (pm : UbuntuPackageManager) (filt : PStr) (fuel : Nat) (nm ver : PStr)
    (cd : Nat) (path : List PStr) :
    dfs_build_graph pm filt (fuel + 1) nm ver cd path =
      (if nm ∈ path then Node.cycleOnly (cycle_string path nm)
       else
         match get_package_info pm nm ver with
         | Except.error e => Node.errorOnly e
         | Except.ok package_info =>
           match get_package_dependencies pm nm ver with
           | Except.error e => Node.errorOnly e
           | Except.ok dependencies =>
             Node.mk (some nm) (some package_info.version) (some cd)
               (some ((filter_dependencies filt dependencies).1.foldl
                 (fun acc dep =>
                   if dep ∈ acc.map Prod.fst then acc
                   else acc ++ [(dep, dfs_build_graph pm filt fuel dep [] (cd + 1)
                       (path ++ [nm]))]) []))
               (if (filter_dependencies filt dependencies).2 = 0 then none
                else some (filter_dependencies filt dependencies).2)
               none none) := rfl

theorem get_deps_of_info (pm : UbuntuPackageManager) (nm v : PStr) (info : PackageRecord)
    (h : get_package_info pm nm v = Except.ok info) :
    get_package_dependencies pm nm v = Except.ok (info.depends ++ info.pre_depends) := by
  unfold get_package_info at h
  rcases hf : pm.fetch with - | cache
  · rw [hf] at h
    exact Except.noConfusion h
  · simp only [hf] at h
    simp only [get_package_dependencies, hf, h]

/-- One-step case analysis of `dfs_build_graph` at positive fuel: the node
is a cycle marker, an error marker, or a fully resolved node. -/
theorem dfs_succ_cases (pm : UbuntuPackageManager) (filt : PStr) (fuel : Nat) (nm ver : PStr)
    (cd : Nat) (path : List PStr) :
    (nm ∈ path ∧
      dfs_build_graph pm filt (fuel + 1) nm ver cd path =
        Node.cycleOnly (cycle_string path nm)) ∨
    (nm ∉ path ∧ ∃ e, get_package_info pm nm ver = Except.error e ∧
      dfs_build_graph pm filt (fuel + 1) nm ver cd path = Node.errorOnly e) ∨
    (nm ∉ path ∧ ∃ info deps, get_package_info pm nm ver = Except.ok info ∧
      get_package_dependencies pm nm ver = Except.ok deps ∧
      dfs_build_graph pm filt (fuel + 1) nm ver cd path =
        Node.mk (some nm) (some info.version) (some cd)
          (some ((filter_dependencies filt deps).1.foldl
            (fun acc dep =>
              if dep ∈ acc.map Prod.fst then acc
              else acc ++ [(dep, dfs_build_graph pm filt fuel dep [] (cd + 1)
                  (path ++ [nm]))]) []))
          (if (filter_dependencies filt deps).2 = 0 then none
           else some (filter_dependencies filt deps).2)
          none none) := by
  by_cases hp : nm ∈ path
  · exact Or.inl ⟨hp, by rw [dfs_succ, if_pos hp]⟩
  · rcases hinfo : get_package_info pm nm ver with e | info
    · exact Or.inr (Or.inl ⟨hp, e, rfl, by
        rw [dfs_succ, if_neg hp]
        simp only [hinfo]⟩)
    · have hdeps := get_deps_of_info pm nm ver info hinfo
      exact Or.inr (Or.inr ⟨hp, info, info.depends ++ info.pre_depends, rfl, hdeps, by
        rw [dfs_succ, if_neg hp]
        simp only [hinfo, hdeps]⟩)

theorem dfs_children_mem (pm : UbuntuPackageManager) (filt : PStr) (fuel cd1 : Nat)
    (cp : List PStr) :
    ∀ (deps : List PStr) (acc : List (PStr × Node)) (a : PStr) (b : Node),
      (a, b) ∈ deps.foldl (fun acc dep =>
          if dep ∈ acc.map Prod.fst then acc
          else acc ++ [(dep, dfs_build_graph pm filt fuel dep [] cd1 cp)]) acc →
      (a, b) ∈ acc ∨ b = dfs_build_graph pm filt fuel a [] cd1 cp := by
  intro deps
  induction deps with
  | nil =>
    intro acc a b h
    simp only [List.foldl_nil] at h
    exact Or.inl h
  | cons d rest ih =>
    intro acc a b h
    simp only [List.foldl_cons] at h
    by_cases hd : d ∈ acc.map Prod.fst
    · rw [if_pos hd] at h
      exact ih acc a b h
    · rw [if_neg hd] at h
      rcases ih _ a b h with hin | heq
      · rcases List.mem_append.mp hin with h1 | h2
        · exact Or.inl h1
        · have hpair := List.mem_singleton.mp h2
          injection hpair with e1 e2
          subst e1
          exact Or.inr e2
      · exact Or.inr heq

theorem dfs_children_shape (pm : UbuntuPackageManager) (filt : PStr) (f : Nat)
    (nm ver : PStr) (cd : Nat) (path : List PStr) {cs : List (PStr × Node)}
    (h : (dfs_build_graph pm filt f nm ver cd path).dependencies = some cs) :
    ∀ a b, (a, b) ∈ cs → b = dfs_build_graph pm filt (f - 1) a [] (cd + 1) (path ++ [nm]) := by
  cases f with
  | zero =>
    rw [dfs_zero] at h
    exact absurd h (by simp [Node.empty, Node.dependencies])
  | succ fuel =>
    intro a b hmem
    rcases dfs_succ_cases pm filt fuel nm ver cd path with
      ⟨hp, heq⟩ | ⟨hp, e, hinfo, heq⟩ | ⟨hp, info, deps, hinfo, hdeps, heq⟩
    · rw [heq] at h
      exact absurd h (by simp [Node.cycleOnly, Node.dependencies])
    · rw [heq] at h
      exact absurd h (by simp [Node.errorOnly, Node.dependencies])
    · rw [heq] at h
      simp only [Node.dependencies, Option.some_inj] at h
      subst h
      rcases dfs_children_mem pm filt fuel (cd + 1) (path ++ [nm]) _ [] a b hmem with hin | heqb
      · simp at hin
      · simpa using heqb

/-- Master lemma: every node of the tree produced by a `dfs_build_graph`
call is itself the result of a `dfs_build_graph` call whose fuel, version
hint, depth and ancestor path are determined by the node's position:
at relative ancestor list `anc`, the fuel drops by `anc.length`, the
depth rises by `anc.length`, the path extends by `anc`, and every
non-root node is looked up with an empty version hint. -/
theorem nodeAt_dfs (pm : UbuntuPackageManager) (filt : PStr) :
    ∀ (anc : List PStr) (f : Nat) (name ver : PStr) (cd : Nat) (path : List PStr)
      (nm : PStr) (nd : Node),
      NodeAt (name, dfs_build_graph pm filt f name ver cd path) anc (nm, nd) →
      nd = dfs_build_graph pm filt (f - anc.length) nm (if anc = [] then ver else [])
        (cd + anc.length) (path ++ anc) := by
  intro anc
  induction anc with
  | nil =>
    intro f name ver cd path nm nd h
    cases h with
    | refl p => simp
  | cons a t ih =>
    intro f name ver cd path nm nd h
    cases h with
    | step hdeps hmem hrest =>
      rename_i cs c
      obtain ⟨c1, c2⟩ := c
      have hc2 : c2 = dfs_build_graph pm filt (f - 1) c1 [] (cd + 1) (path ++ [a]) :=
        dfs_children_shape pm filt f a ver cd path hdeps c1 c2 hmem
      rw [hc2] at hrest
      have hrec := ih (f - 1) c1 [] (cd + 1) (path ++ [a]) nm nd hrest
      rw [hrec, ite_self]
      have h1 : f - 1 - t.length = f - (a :: t).length := by
        rw [List.length_cons, Nat.sub_sub, Nat.add_comm]
      have h2 : cd + 1 + t.length = cd + (a :: t).length := by
        rw [List.length_cons]
        omega
      have h3 : path ++ [a] ++ t = path ++ a :: t := by
        rw [List.append_assoc, List.singleton_append]
      rw [h1, h2, h3, if_neg (by simp)]

theorem dfs_cycle_char (pm : UbuntuPackageManager) (filt : PStr) (f : Nat) (nm ver : PStr)
    (cd : Nat) (path : List PStr) :
    ((dfs_build_graph pm filt f nm ver cd path).cycle.isSome = true ↔ f ≠ 0 ∧ nm ∈ path) ∧
    (∀ s, (dfs_build_graph pm filt f nm ver cd path).cycle = some s →
      s = cycle_string path nm) := by
  cases f with
  | zero =>
    rw [dfs_zero]
    constructor
    · simp [Node.empty, Node.cycle]
    · intro s hs
      simp [Node.empty, Node.cycle] at hs
  | succ fuel =>
    rcases dfs_succ_cases pm filt fuel nm ver cd path with
      ⟨hp, heq⟩ | ⟨hp, e, hinfo, heq⟩ | ⟨hp, info, deps, hinfo, hdeps, heq⟩
    · rw [heq]
      constructor
      · simp [Node.cycleOnly, Node.cycle, hp]
      · intro s hs
        simp only [Node.cycleOnly, Node.cycle, Option.some_inj] at hs
        exact hs.symm
    · rw [heq]
      constructor
      · simp [Node.errorOnly, Node.cycle, hp]
      · intro s hs
        simp [Node.errorOnly, Node.cycle] at hs
    · rw [heq]
      constructor
      · simp [Node.cycle, hp]
      · intro s hs
        simp [Node.cycle] at hs

theorem dfs_depth_char (pm : UbuntuPackageManager) (filt : PStr) (f : Nat) (nm ver : PStr)
    (cd : Nat) (path : List PStr) :
    ∀ d, (dfs_build_graph pm filt f nm ver cd path).depth = some d → d = cd ∧ f ≠ 0 := by
  intro d hd
  cases f with
  | zero =>
    rw [dfs_zero] at hd
    simp [Node.empty, Node.depth] at hd
  | succ fuel =>
    rcases dfs_succ_cases pm filt fuel nm ver cd path with
      ⟨hp, heq⟩ | ⟨hp, e, hinfo, heq⟩ | ⟨hp, info, deps, hinfo, hdeps, heq⟩
    · rw [heq] at hd
      simp [Node.cycleOnly, Node.depth] at hd
    · rw [heq] at hd
      simp [Node.errorOnly, Node.depth] at hd
    · rw [heq] at hd
      simp only [Node.depth, Option.some_inj] at hd
      exact ⟨hd.symm, Nat.succ_ne_zero fuel⟩

/-- The node of the built graph found at ancestor list `anc` is the DFS
result at fuel `(max_depth + 1).toNat - anc.length`, depth `anc.length`,
path `anc` (specialization of `nodeAt_dfs` to `build_dependency_graph`). -/
theorem nodeAt_build (pm : UbuntuPackageManager) (name ver : PStr) (md : Int) (filt : PStr)
    (anc : List PStr) (nm : PStr) (nd : Node)
    (h : NodeAt (name, (build_dependency_graph pm name ver md filt).dependencies)
      anc (nm, nd)) :
    nd = dfs_build_graph pm filt ((md + 1).toNat - anc.length) nm
      (if anc = [] then ver else []) anc.length anc := by
  have hm := nodeAt_dfs pm filt anc (md + 1).toNat name ver 0 [] nm nd h
  simpa using hm

/-- C4: in every built graph, every node's recorded depth is at most
`max_depth` and equals the node's distance from the root; a child's
recorded depth is its parent's plus one; and a node whose expansion would
exceed `max_depth` (distance from root greater than `max_depth`) is left
as the empty dict: an unmarked leaf with no fields at all. -/
theorem C4_depth_spec :
    ∀ (pm : UbuntuPackageManager) (name ver : PStr) (md : Int) (filt : PStr)
      (anc : List PStr) (nm : PStr) (nd : Node),
      NodeAt (name, (build_dependency_graph pm name ver md filt).dependencies) anc (nm, nd) →
      (∀ d, nd.depth = some d → (d : Int) ≤ md ∧ d = anc.length) ∧
      (∀ dp cs nm2 nd2 dc, nd.depth = some dp → nd.dependencies = some cs →
        (nm2, nd2) ∈ cs → nd2.depth = some dc → dc = dp + 1) ∧
      ((anc.length : Int) > md → nd = Node.empty) := by
  intro pm name ver md filt anc nm nd h
  have hnd := nodeAt_build pm name ver md filt anc nm nd h
  have hdepth : ∀ d, nd.depth = some d → (d : Int) ≤ md ∧ d = anc.length := by
    intro d hd
    rw [hnd] at hd
    obtain ⟨hdc, hfz⟩ := dfs_depth_char pm filt ((md + 1).toNat - anc.length) nm
      (if anc = [] then ver else []) anc.length anc d hd
    constructor
    · omega
    · exact hdc
  refine ⟨hdepth, ?_, ?_⟩
  · intro dp cs nm2 nd2 dc hdp hdeps hmem hdc
    have hchild : NodeAt (name, (build_dependency_graph pm name ver md filt).dependencies)
        (anc ++ [nm]) (nm2, nd2) := NodeAt_snoc h hdeps hmem
    have hnd2 := nodeAt_build pm name ver md filt (anc ++ [nm]) nm2 nd2 hchild
    rw [hnd2] at hdc
    obtain ⟨hdc2, -⟩ := dfs_depth_char pm filt _ nm2 _ (anc ++ [nm]).length (anc ++ [nm]) dc hdc
    obtain ⟨-, hdp2⟩ := hdepth dp hdp
    rw [hdc2, hdp2]
    simp
  · intro hgt
    rw [hnd]
    have hz : (md + 1).toNat - anc.length = 0 := by omega
    rw [hz, dfs_zero]

/-- Witness for C4 at the root node of the graph built over `pmY`. -/
theorem C4_witness :
    ((0 : Nat) : Int) ≤ 5 ∧ (0 : Nat) = List.length ([] : List PStr) :=
  (C4_depth_spec pmY "a".data "1.0".data 5 [] [] "a".data
    (build_dependency_graph pmY "a".data "1.0".data 5 []).dependencies
    (NodeAt.refl _)).1 0 rfl

/-- C3 (amended): in every built graph, a node's `cycle` field is set if
and only if its name appears among its ancestors on the same
root-to-node path AND the node is within the depth bound (its distance
from the root, as an integer, is at most `max_depth`); when set it holds
the closing path `"A -> B -> ... -> A"`.  A depth-truncated entry is left
as an empty dict even when its name repeats an ancestor.  In the
end-to-end scenario over `pmB` (`a` depends on `b`, `b` depends on `a`),
node `b` carries depth 1 and its child `a` (at distance 2 from the root)
carries the cycle string `"a -> b -> a"`. -/
theorem C3_cycle_amended :
    (∀ (pm : UbuntuPackageManager) (name ver : PStr) (md : Int) (filt : PStr)
       (anc : List PStr) (nm : PStr) (nd : Node),
      NodeAt (name, (build_dependency_graph pm name ver md filt).dependencies) anc (nm, nd) →
      ((nd.cycle.isSome = true ↔ nm ∈ anc ∧ (anc.length : Int) ≤ md) ∧
       (∀ s, nd.cycle = some s → s = cycle_string anc nm))) ∧
    (build_dependency_graph pmB "a".data "1.0".data 5 []).dependencies =
      Node.mk (some "a".data) (some "1.0".data) (some 0)
        (some [("b".data, Node.mk (some "b".data) (some "2.0".data) (some 1)
          (some [("a".data, Node.cycleOnly "a -> b -> a".data)]) none none none)])
        none none none := by
  refine ⟨?_, rfl⟩
  intro pm name ver md filt anc nm nd h
  have hnd := nodeAt_build pm name ver md filt anc nm nd h
  obtain ⟨hiff, hval⟩ := dfs_cycle_char pm filt ((md + 1).toNat - anc.length) nm
    (if anc = [] then ver else []) anc.length anc
  constructor
  · rw [hnd, hiff]
    constructor
    · rintro ⟨hf, hmem⟩
      exact ⟨hmem, by omega⟩
    · rintro ⟨hmem, hle⟩
      exact ⟨by omega, hmem⟩
  · intro s hs
    rw [hnd] at hs
    exact hval s hs

/-- Counterexample to C3 as stated: with `max_depth = 1` over `pmB`, the
entry for `a` under path `a -> b` has `a` among its ancestors yet its
`cycle` field is not set — the node is the empty dict, because the depth
check precedes the cycle check. -/
theorem C3_counterexample :
    NodeAt ("a".data, (build_dependency_graph pmB "a".data "1.0".data 1 []).dependencies)
      ["a".data, "b".data] ("a".data, Node.empty) ∧
    "a".data ∈ ["a".data, "b".data] ∧
    Node.empty.cycle = none :=
  ⟨NodeAt.step rfl (List.Mem.head _) (NodeAt.step rfl (List.Mem.head _) (NodeAt.refl _)),
   by decide, rfl⟩

/-- Witness for (amended) C3 at the cycle node of the graph built over
`pmB` with `max_depth = 5`. -/
theorem C3_witness :
    (Node.cycleOnly "a -> b -> a".data).cycle.isSome = true ∧
    "a -> b -> a".data = cycle_string ["a".data, "b".data] "a".data :=
  ⟨((C3_cycle_amended.1 pmB "a".data "1.0".data 5 [] ["a".data, "b".data] "a".data
      (Node.cycleOnly "a -> b -> a".data)
      (NodeAt.step rfl (List.Mem.head _)
        (NodeAt.step rfl (List.Mem.head _) (NodeAt.refl _)))).1).mpr
      ⟨by decide, by decide⟩,
   (C3_cycle_amended.1 pmB "a".data "1.0".data 5 [] ["a".data, "b".data] "a".data
      (Node.cycleOnly "a -> b -> a".data)
      (NodeAt.step rfl (List.Mem.head _)
        (NodeAt.step rfl (List.Mem.head _) (NodeAt.refl _)))).2 _ rfl⟩

/-- C2 (amended): when every mirror fetch attempt fails, the failure
raised inside the root node's resolution is caught by the graph builder's
per-node exception handler like any other failure: `build_dependency_graph`
returns normally with the index-unavailable failure recorded in the ROOT
node's `error` field (for `0 ≤ max_depth`).  A `PackageNotFound` failure
is likewise caught and recorded in the affected node's `error` field, and
the traversal of sibling branches continues: over `pmS`, the root's child
`x` (absent from the index) carries an `error` while its sibling `b` is
still fully expanded. -/
theorem C2_error_handling_amended :
    (∀ (pm : UbuntuPackageManager) (name ver : PStr) (md : Int) (filt : PStr),
      pm.fetch = none → 0 ≤ md →
      (build_dependency_graph pm name ver md filt).dependencies =
        Node.errorOnly PkgError.indexUnavailable) ∧
    (∀ (pm : UbuntuPackageManager) (cache : List (PStr × PackageRecord)) (filt : PStr)
       (f : Nat) (name ver : PStr) (cd : Nat) (path : List PStr) (e : PkgError),
      pm.fetch = some cache → find_package cache name = Except.error e → name ∉ path →
      dfs_build_graph pm filt (f + 1) name ver cd path = Node.errorOnly e) ∧
    ((build_dependency_graph pmS "r".data "1.0".data 5 []).dependencies =
      Node.mk (some "r".data) (some "1.0".data) (some 0)
        (some [("x".data,
                Node.errorOnly (PkgError.notFoundExamples "x".data ["r".data, "b".data])),
               ("b".data,
                Node.mk (some "b".data) (some "2.0".data) (some 1) (some []) none none none)])
        none none none) := by
  refine ⟨?_, ?_, rfl⟩
  · intro pm name ver md filt hfetch hmd
    have hinfo : get_package_info pm name ver = Except.error PkgError.indexUnavailable := by
      simp only [get_package_info, hfetch]
    obtain ⟨k, hk⟩ : ∃ k, (md + 1).toNat = k + 1 := ⟨md.toNat, by omega⟩
    unfold build_dependency_graph
    simp only [hk]
    rcases dfs_succ_cases pm filt k name ver 0 [] with
      ⟨hp, heq⟩ | ⟨hp, e, hi, heq⟩ | ⟨hp, info, deps, hi, hd, heq⟩
    · simp at hp
    · rw [hi] at hinfo
      injection hinfo with he
      rw [heq, he]
    · rw [hi] at hinfo
      exact Except.noConfusion hinfo
  · intro pm cache filt f name ver cd path e hfetch hfind hp
    have hinfo : get_package_info pm name ver = Except.error e := by
      simp only [get_package_info, hfetch]
      exact hfind
    rcases dfs_succ_cases pm filt f name ver cd path with
      ⟨hp2, heq⟩ | ⟨hp2, e2, hi, heq⟩ | ⟨hp2, info, deps, hi, hd, heq⟩
    · exact absurd hp2 hp
    · rw [hi] at hinfo
      injection hinfo with he
      rw [heq, he]
    · rw [hi] at hinfo
      exact Except.noConfusion hinfo

/-- Counterexample to C2 as stated: with every mirror failing, the
index-unavailable failure is NOT propagated out of
`build_dependency_graph`; the build returns a graph whose root node
carries the failure in its `error` field. -/
theorem C2_counterexample :
    (build_dependency_graph pmNone "a".data "1.0".data 5 []).dependencies.error =
      some PkgError.indexUnavailable ∧
    build_dependency_graph pmNone "a".data "1.0".data 5 [] =
      { root := "a".data, dependencies := Node.errorOnly PkgError.indexUnavailable,
        cycles := [], filtered_count := 0 } :=
  ⟨rfl, rfl⟩

/-- Witness for (amended) C2: the root node of a fetch-failing build is
exactly the error-only node. -/
theorem C2_witness :
    (build_dependency_graph pmNone "a".data "1.0".data 5 []).dependencies =
      Node.errorOnly PkgError.indexUnavailable :=
  C2_error_handling_amended.1 pmNone "a".data "1.0".data 5 [] rfl (by decide)

/-- C10: whenever a node at distance exactly `max_depth` from the root
has a surviving dependency, the child entry created for it remains the
empty dict (no `package`, `version`, `depth` or `dependencies` key), and
`get_statistics` on any graph containing such an empty child raises
(returns `none`): its inner `count_nodes` yields the 2-tuple `(0, 0)` for
the empty dict while the recursive caller unpacks three values. -/
theorem C10_truncation_spec :
    (∀ (pm : UbuntuPackageManager) (name ver : PStr) (md : Int) (filt : PStr)
       (anc : List PStr) (nm : PStr) (nd : Node) (cs : List (PStr × Node))
       (nm2 : PStr) (nd2 : Node),
      NodeAt (name, (build_dependency_graph pm name ver md filt).dependencies) anc (nm, nd) →
      (anc.length : Int) = md → nd.dependencies = some cs → (nm2, nd2) ∈ cs →
      nd2 = Node.empty) ∧
    (∀ (g : Graph) (anc : List PStr) (nm : PStr) (nd : Node) (cs : List (PStr × Node))
       (nm2 : PStr),
      NodeAt (g.root, g.dependencies) anc (nm, nd) → nd.dependencies = some cs →
      (nm2, Node.empty) ∈ cs → get_statistics g = none) := by
  constructor
  · intro pm name ver md filt anc nm nd cs nm2 nd2 h hlen hdeps hmem
    have hchild : NodeAt (name, (build_dependency_graph pm name ver md filt).dependencies)
        (anc ++ [nm]) (nm2, nd2) := NodeAt_snoc h hdeps hmem
    have hnd2 := nodeAt_build pm name ver md filt (anc ++ [nm]) nm2 nd2 hchild
    have hz : (md + 1).toNat - (anc ++ [nm]).length = 0 := by
      rw [List.length_append, List.length_singleton]
      omega
    rw [hnd2, hz, dfs_zero]
  · intro g anc nm nd cs nm2 h hdeps hmem
    have hbadn : bad_count nd :=
      bad_count_of_child nd cs hdeps
        (count_children_none_of_bad nm2 Node.empty bad_count_empty cs hmem)
    exact get_statistics_none_of_bad g (bad_count_lift h hbadn)

/-- Witness for C10 over `pmY` with `max_depth = 0`: the root has a
surviving dependency `b` whose entry is the empty dict, and statistics on
that graph raise. -/
theorem C10_witness :
    Node.empty = Node.empty ∧
    get_statistics (build_dependency_graph pmY "a".data "1.0".data 0 []) = none :=
  ⟨C10_truncation_spec.1 pmY "a".data "1.0".data 0 [] []
      "a".data (build_dependency_graph pmY "a".data "1.0".data 0 []).dependencies
      [("b".data, Node.empty)] "b".data Node.empty (NodeAt.refl _) rfl rfl (List.Mem.head _),
   C10_truncation_spec.2 (build_dependency_graph pmY "a".data "1.0".data 0 []) []
      "a".data (build_dependency_graph pmY "a".data "1.0".data 0 []).dependencies
      [("b".data, Node.empty)] "b".data (NodeAt.refl _) rfl (List.Mem.head _)⟩

/-- Successful statistics: `count_nodes` on the root's node produced a
3-tuple, and the returned record is built from it, with
`max_depth_reached` from `_get_max_depth` and `filtered_count` read from
the graph's top-level field. -/
theorem get_statistics_some (g : Graph) (st : Statistics)
    (h : get_statistics g = some st) :
    ∃ t e c, count_nodes g.dependencies = some [t, e, c] ∧
      st = Statistics.mk t g.root (get_max_depth g) e c g.filtered_count := by
  unfold get_statistics at h
  rcases count_shape g.dependencies with h0 | h0 | ⟨t, e, c, h0⟩
  · rw [h0] at h
    exact Option.noConfusion h
  · rw [h0] at h
    simp at h
  · rw [h0] at h
    refine ⟨t, e, c, h0, ?_⟩
    have h2 : some (Statistics.mk t g.root (get_max_depth g) e c g.filtered_count)
        = some st := h
    exact (Option.some_inj.mp h2).symm

/-- C9: the top-level `filtered_count` of every built graph is 0 (the
per-node filter increments go to the root's node and deeper, never to the
top-level field), and `get_statistics` reads exactly that top-level
field, so whenever it returns a result for a built graph it reports
`filtered_count = 0` regardless of how many dependencies were actually
dropped — over `pmF` with filter `"a"`, the root node records
`filtered_count = 2` while the top-level field stays 0. -/
theorem C9_filtered_count_spec :
    (∀ (pm : UbuntuPackageManager) (name ver : PStr) (md : Int) (filt : PStr),
      (build_dependency_graph pm name ver md filt).filtered_count = 0) ∧
    (∀ (g : Graph) (st : Statistics), get_statistics g = some st →
      st.filtered_count = g.filtered_count) ∧
    (∀ (pm : UbuntuPackageManager) (name ver : PStr) (md : Int) (filt : PStr)
       (st : Statistics),
      get_statistics (build_dependency_graph pm name ver md filt) = some st →
      st.filtered_count = 0) ∧
    ((build_dependency_graph pmF "p".data "1.0".data 5 "a".data).dependencies.filtered_count
        = some 2 ∧
     (build_dependency_graph pmF "p".data "1.0".data 5 "a".data).filtered_count = 0) := by
  have hread : ∀ (g : Graph) (st : Statistics), get_statistics g = some st →
      st.filtered_count = g.filtered_count := by
    intro g st h
    obtain ⟨t, e, c, hc, hst⟩ := get_statistics_some g st h
    rw [hst]
  refine ⟨fun pm name ver md filt => rfl, hread, ?_, rfl, rfl⟩
  intro pm name ver md filt st h
  rw [hread _ st h]
  rfl

/-- Witness for C9 over `pmF` with filter `"a"`: two dependencies are
dropped, yet both the top-level field and the reported statistic are 0. -/
theorem C9_witness :
    (build_dependency_graph pmF "p".data "1.0".data 5 "a".data).filtered_count = 0 ∧
    (Statistics.mk 2 "p".data 1 0 0 0).filtered_count = 0 :=
  ⟨C9_filtered_count_spec.1 pmF "p".data "1.0".data 5 "a".data,
   C9_filtered_count_spec.2.2.1 pmF "p".data "1.0".data 5 "a".data _ rfl⟩

/-- C1 (amended): whenever `get_statistics` returns a result for a built
graph, `total_packages` is the number of nodes of the tree hanging off
the graph's `dependencies` key — that tree's root (the root package's own
node) INCLUDED in the count — `errors_count`/`cycles_count` are the
numbers of nodes carrying `error`/`cycle`, and `max_depth_reached` is the
maximum distance from the root's node to any node (0 if the root's node
has no children). -/
theorem C1_statistics_amended :
    ∀ (pm : UbuntuPackageManager) (name ver : PStr) (md : Int) (filt : PStr)
      (st : Statistics),
      get_statistics (build_dependency_graph pm name ver md filt) = some st →
      st.total_packages =
        num_nodes (build_dependency_graph pm name ver md filt).dependencies ∧
      st.errors_count =
        num_error_nodes (build_dependency_graph pm name ver md filt).dependencies ∧
      st.cycles_count =
        num_cycle_nodes (build_dependency_graph pm name ver md filt).dependencies ∧
      st.max_depth_reached =
        struct_max_depth (build_dependency_graph pm name ver md filt).dependencies ∧
      st.root_package = name := by
  intro pm name ver md filt st h
  obtain ⟨t, e, c, hc, hst⟩ := get_statistics_some _ st h
  obtain ⟨h1, h2, h3⟩ := count_nodes_eq _ t e c hc
  subst hst
  refine ⟨h1, h2, h3, ?_, rfl⟩
  show get_max_depth (build_dependency_graph pm name ver md filt) = _
  unfold get_max_depth
  rw [find_depth_eq]
  simp

/-- Counterexample to C1 as stated: over `pmY` (root `a` with single
dependency `b`), the nodes reachable from the root's children mapping —
the root's node excluded — number 1 (just `b`), yet `get_statistics`
reports `total_packages = 2`: `count_nodes` starts at the root's node
itself and counts it. -/
theorem C1_counterexample :
    get_statistics (build_dependency_graph pmY "a".data "1.0".data 5 []) =
      some { total_packages := 2, root_package := "a".data, max_depth_reached := 1,
             errors_count := 0, cycles_count := 0, filtered_count := 0 } ∧
    (build_dependency_graph pmY "a".data "1.0".data 5 []).dependencies.dependencies =
      some [("b".data,
        Node.mk (some "b".data) (some "2.0".data) (some 1) (some []) none none none)] ∧
    num_nodes_list
      [("b".data,
        Node.mk (some "b".data) (some "2.0".data) (some 1) (some []) none none none)] = 1 ∧
    (2 : Nat) ≠ 1 :=
  ⟨rfl, rfl, rfl, by decide⟩

/-- Witness for (amended) C1 over `pmY`. -/
theorem C1_witness :
    (Statistics.mk 2 "a".data 1 0 0 0).total_packages
        = num_nodes (build_dependency_graph pmY "a".data "1.0".data 5 []).dependencies ∧
    (Statistics.mk 2 "a".data 1 0 0 0).errors_count
        = num_error_nodes (build_dependency_graph pmY "a".data "1.0".data 5 []).dependencies ∧
    (Statistics.mk 2 "a".data 1 0 0 0).cycles_count
        = num_cycle_nodes (build_dependency_graph pmY "a".data "1.0".data 5 []).dependencies ∧
    (Statistics.mk 2 "a".data 1 0 0 0).max_depth_reached
        = struct_max_depth (build_dependency_graph pmY "a".data "1.0".data 5 []).dependencies ∧
    (Statistics.mk 2 "a".data 1 0 0 0).root_package = "a".data :=
  C1_statistics_amended pmY "a".data "1.0".data 5 [] _ rfl
